import Mathlib

/-!
Shallow embedding of the question-markup rendering pipeline and the
quiz-session logic of `src/App.tsx` (JEE Question Bank), together with
proofs about it.

Strings are manipulated through their character lists with structural
recursion so that every definition is executable by the kernel.  The
JavaScript string primitives used by the source (`split` on a literal
separator, `split(/\n+/)`, `trim`, `includes`, `startsWith`, `endsWith`,
`slice`, and the default `Array.prototype.sort` string order) are embedded
char-wise with the same semantics on the inputs the application handles.
-/

namespace JeeQB

/-- First occurrence of `pat` in `l` (JavaScript-style substring search):
returns the part strictly before the match and the part strictly after it,
or `none` when `pat` does not occur.  For the empty pattern it matches at
the front, like JavaScript's `indexOf`. -/
def findSub (pat : List Char) : List Char → Option (List Char × List Char)
  | [] => if pat.isEmpty then some ([], []) else none
  | c :: rest =>
    if pat.isPrefixOf (c :: rest) then some ([], (c :: rest).drop pat.length)
    else (findSub pat rest).map fun pr => (c :: pr.1, pr.2)

/-- JavaScript `String.includes` for a non-empty pattern. -/
def hasSub (pat s : String) : Bool := (findSub pat.data s.data).isSome

/-- Fuelled worker for splitting on a literal separator.  One unit of fuel
is spent per separator occurrence, so `length + 1` fuel never runs out. -/
def splitSubAux (sep : List Char) : Nat → List Char → List (List Char)
  | 0, l => [l]
  | fuel + 1, l =>
    match findSub sep l with
    | none => [l]
    | some (pre, post) => pre :: splitSubAux sep fuel post

/-- JavaScript `String.split` on a literal non-empty separator. -/
def jsSplit (sep : String) (s : String) : List String :=
  (splitSubAux sep.data (s.data.length + 1) s.data).map (fun cs => (⟨cs⟩ : String))

/-- JavaScript `String.split(/\n+/)` on character lists: fields separated by
maximal runs of newline characters. -/
def splitNLChars : List Char → List (List Char)
  | [] => [[]]
  | c :: rest =>
    if c = '\n' then
      match rest with
      | '\n' :: _ => splitNLChars rest
      | _ => [] :: splitNLChars rest
    else
      match splitNLChars rest with
      | [] => [[c]]
      | f :: fs => (c :: f) :: fs

/-- JavaScript `String.split(/\n+/)`. -/
def splitNewlineRuns (s : String) : List String :=
  (splitNLChars s.data).map (fun cs => (⟨cs⟩ : String))

/-- JavaScript `String.trim` (whitespace at both ends; the application's
question bank is ASCII, where `Char.isWhitespace` agrees with JavaScript). -/
def jsTrim (s : String) : String :=
  ⟨((s.data.dropWhile Char.isWhitespace).reverse.dropWhile Char.isWhitespace).reverse⟩

/-- JavaScript `String.startsWith`. -/
def jsStartsWith (pat s : String) : Bool := pat.data.isPrefixOf s.data

/-- JavaScript `String.endsWith`. -/
def jsEndsWith (pat s : String) : Bool := pat.data.isSuffixOf s.data

/-- JavaScript `s.slice(2, -2)`: drop the two delimiter characters at each
end (used for the `\[` / `\]` brackets of a display-math region). -/
def innerSlice (s : String) : String :=
  ⟨(s.data.drop 2).take ((s.data.drop 2).length - 2)⟩

/-- JavaScript's default string comparison (code-unit lexicographic `≤`) as
a Boolean relation on character lists. -/
def lexLeb : List Char → List Char → Bool
  | [], _ => true
  | _ :: _, [] => false
  | a :: as, b :: bs => if a < b then true else if b < a then false else lexLeb as bs

/-- The ordering used by JavaScript's default `Array.prototype.sort` on an
array of strings. -/
def jsLe (a b : String) : Prop := lexLeb a.data b.data = true

instance : DecidableRel jsLe := fun a b => by unfold jsLe; infer_instance

/-- `handleMultiAnswer` (App.tsx): toggle one option letter in the stored
multiple-choice answer record.  A present letter is removed by `filter`; an
absent letter is appended and the record re-sorted (JS `[..., x].sort()`),
embedded as an insertion sort under the JS string order. -/
def handleMultiAnswer (currentAnswers : List String) (answer : String) : List String :=
  if currentAnswers.contains answer then
    currentAnswers.filter (fun a => a != answer)
  else
    List.insertionSort jsLe (currentAnswers ++ [answer])

/-- A sequence of multi-answer toggles applied to the (initially absent,
hence `[]`) answer record of one question. -/
def applyToggles (toggles : List String) : List String :=
  toggles.foldl handleMultiAnswer []

/-- One question record of the bundled `quiz.json` bank, with the fields the
application reads (`type`, `question`, `gold`, `subject`, `description`). -/
structure Question where
  id : Nat
  type : String
  question : String
  gold : String
  subject : String
  description : String
deriving DecidableEq, Repr

/-- The per-question correctness test inlined in the `forEach` body of
`calculateScore` (App.tsx): multiple-choice answers are joined with `''` and
compared to `gold` as one literal string; every other kind compares the
first recorded answer (if any) to `gold` exactly. -/
def isAnswerCorrect (q : Question) (userAnswer : List String) : Bool :=
  if q.type = "MCQ(multiple)" then String.join userAnswer == q.gold
  else userAnswer.head? == some q.gold

/-- `calculateScore` (App.tsx): fold over the session's questions with their
indices, bumping the score whenever the recorded answer (defaulting to `[]`)
passes the per-question test. -/
def calculateScore (questions : List Question) (answers : Nat → Option (List String)) : Nat :=
  questions.enum.foldl
    (fun score iq =>
      let userAnswer := (answers iq.1).getD []
      if iq.2.type = "MCQ(multiple)" then
        if String.join userAnswer == iq.2.gold then score + 1 else score
      else
        if userAnswer.head? == some iq.2.gold then score + 1 else score)
    0

/-- `filteredQuestions` (App.tsx): filter the bank by the chosen subject,
shuffle (`.sort(() => Math.random() - 0.5)`, modelled as an arbitrary
reordering function), and take the first 20. -/
def filteredQuestions (bank : List Question) (subject : String)
    (shuffle : List Question → List Question) : List Question :=
  (shuffle (bank.filter (fun q => q.subject = subject))).take 20

/-- Output of the markup segmenter, one constructor per kind of rendered
node `renderMath` can emit at the top level: a paragraph, a display-math
block, a table (holding the raw content handed to the `Table` component),
or a bare string emitted verbatim (the `: part` fallback when the tabular
interior is missing or empty). -/
inductive Block where
  | para (text : String)
  | displayMath (content : String)
  | table (content : String)
  | rawText (text : String)
deriving DecidableEq, Repr

/-- Fuelled worker for `text.split(/(\\\[[\s\S]*?\\\])/)`: repeatedly find
the next `\[`, then the first `\]` after it; the bounded region is kept as
its own field (JS keeps captured separators).  One unit of fuel per region,
so `length + 1` fuel never runs out. -/
def splitDisplayAux : Nat → List Char → List (List Char)
  | 0, l => [l]
  | fuel + 1, l =>
    match findSub ['\\', '['] l with
    | none => [l]
    | some (pre, rest1) =>
      match findSub ['\\', ']'] rest1 with
      | none => [l]
      | some (mid, rest2) =>
        pre :: ('\\' :: '[' :: (mid ++ ['\\', ']'])) :: splitDisplayAux fuel rest2

/-- `text.split(/(\\\[[\s\S]*?\\\])/)` from `renderMath` (App.tsx). -/
def splitDisplay (s : String) : List String :=
  (splitDisplayAux (s.data.length + 1) s.data).map (fun cs => (⟨cs⟩ : String))

/-- `part.match(/\\begin{tabular}([\s\S]*?)\\end{tabular}/)?.[1]` from
`renderMath` (App.tsx): the substring between the first tabular-begin
marker and the first tabular-end marker after it, if both exist. -/
def tabularContent (part : String) : Option String :=
  match findSub "\\begin{tabular}".data part.data with
  | none => none
  | some (_, rest) =>
    match findSub "\\end{tabular}".data rest with
    | none => none
    | some (mid, _) => some ⟨mid⟩

/-- Classification of one blank-line-separated segment: the body of the map
in the non-display branch of `renderMath` (App.tsx).  A segment with both a
center marker and a tabular-begin marker yields a `Table` when the matched
interior is truthy (defined and non-empty), else falls back to the raw
string; a segment that trims to a bare center marker yields nothing; any
other segment yields one paragraph. -/
def classifySegment (part : String) : Option Block :=
  if hasSub "\\begin{center}" part && hasSub "\\begin{tabular}" part then
    match tabularContent part with
    | some c => if c = "" then some (Block.rawText part) else some (Block.table c)
    | none => some (Block.rawText part)
  else if jsTrim part = "\\begin{center}" ∨ jsTrim part = "\\end{center}" then none
  else some (Block.para part)

/-- `renderMath` (App.tsx) at the block level.  If the text contains both
`\[` and `\]`, it is split on whole display-math regions; each region's
interior becomes one display-math block, and every other piece is split on
newline runs into paragraphs, dropping pieces that trim to nothing.
Otherwise the text is split on newline runs and each segment classified by
`classifySegment`. -/
def renderMath (text : String) : List Block :=
  if hasSub "\\[" text && hasSub "\\]" text then
    (splitDisplay text).flatMap fun part =>
      if jsStartsWith "\\[" part && jsEndsWith "\\]" part then
        [Block.displayMath (innerSlice part)]
      else
        (splitNewlineRuns part).filterMap fun tp =>
          if jsTrim tp = "" then none else some (Block.para tp)
  else
    (splitNewlineRuns text).filterMap classifySegment

/-- Candidate table rows from the `Table` component (App.tsx):
`content.split("\\\\")`, each trimmed, dropping rows that are `\hline` or
empty. -/
def tableRows (content : String) : List String :=
  ((jsSplit "\\\\" content).map jsTrim).filter (fun row => row != "\\hline" && row != "")

/-- One row's cells: `row.split("&")` with each cell trimmed (the `Table`
component trims header cells at extraction and body cells at render). -/
def splitCells (row : String) : List String := (jsSplit "&" row).map jsTrim

/-- Header/body extraction of the `Table` component (App.tsx).  `none`
models the component's unguarded `rows[0]` access on an empty row list,
which is a TypeError crash in the JavaScript source. -/
def extractTable (content : String) : Option (List String × List (List String)) :=
  match tableRows content with
  | [] => none
  | header :: body => some (splitCells header, body.map splitCells)

/-- A fragment of text destined for display, after the inline-math split:
either literal text or a math expression for the typesetting engine. -/
inductive InlineFrag where
  | lit (s : String)
  | math (s : String)
deriving DecidableEq, Repr

/-- A rendered inline node: literal text, typeset markup returned by the
typesetting collaborator, or the raw expression text substituted when the
collaborator failed. -/
inductive Inline where
  | lit (s : String)
  | typeset (html : String)
  | raw (s : String)
deriving DecidableEq, Repr

/-- The inline-math split of `renderMathInline` (App.tsx): split on `$`,
odd-indexed fragments are math expressions, even-indexed ones literal. -/
def inlineFrags (text : String) : List InlineFrag :=
  (jsSplit "$" text).enum.map fun ip =>
    if ip.1 % 2 = 1 then InlineFrag.math ip.2 else InlineFrag.lit ip.2

/-- Rendering of one fragment: math is handed to the typesetting
collaborator (modelled as `katex : String → Option String`, `none` being a
signalled failure); on failure the raw expression text is substituted. -/
def renderFrag (katex : String → Option String) : InlineFrag → Inline
  | InlineFrag.lit s => Inline.lit s
  | InlineFrag.math e =>
    match katex e with
    | some html => Inline.typeset html
    | none => Inline.raw e

/-- `renderMathInline` (App.tsx): split on `$`; every odd-indexed fragment
is handed to the typesetting collaborator (raw text on failure), every
even-indexed fragment stays literal. -/
def renderMathInline (katex : String → Option String) (text : String) : List Inline :=
  (jsSplit "$" text).enum.map fun ip =>
    if ip.1 % 2 = 1 then
      match katex ip.2 with
      | some html => Inline.typeset html
      | none => Inline.raw ip.2
    else Inline.lit ip.2

/-- The display-math branch as claim C1 states it: the parts outside the
bounded regions get the full remaining segmentation rules (blank-line
split, table detection, center-marker dropping, paragraph formation),
i.e. `classifySegment`.  Formalised from the claim's words, for comparison
with the source-derived `renderMath`. -/
def renderMathClaimC1 (text : String) : List Block :=
  (splitDisplay text).flatMap fun part =>
    if jsStartsWith "\\[" part && jsEndsWith "\\]" part then
      [Block.displayMath (innerSlice part)]
    else
      (splitNewlineRuns part).filterMap classifySegment

/-- The display-math branch as claim C1 is amended: the parts outside the
bounded regions get only the blank-line split and paragraph formation,
with parts that trim to nothing dropped; table detection and center-marker
dropping are not applied there. -/
def renderMathAmendedC1 (text : String) : List Block :=
  (splitDisplay text).flatMap fun part =>
    if jsStartsWith "\\[" part && jsEndsWith "\\]" part then
      [Block.displayMath (innerSlice part)]
    else
      (splitNewlineRuns part).filterMap fun tp =>
        if jsTrim tp = "" then none else some (Block.para tp)

/-- Segment classification as claim C2 is amended: a segment containing
both markers becomes a Table block from the substring between the first
tabular-begin marker and the first tabular-end marker after it, provided
that end marker exists and the substring is non-empty, and is otherwise
emitted verbatim as raw text; a segment trimming to a bare center marker
yields no block; every other segment yields one paragraph.  Formalised
from the amended claim's words. -/
def classifySegmentAmendedC2 (part : String) : Option Block :=
  if hasSub "\\begin{center}" part = true ∧ hasSub "\\begin{tabular}" part = true then
    match tabularContent part with
    | some c => if c ≠ "" then some (Block.table c) else some (Block.rawText part)
    | none => some (Block.rawText part)
  else if jsTrim part = "\\begin{center}" ∨ jsTrim part = "\\end{center}" then none
  else some (Block.para part)

/-- The Table Extractor as claim C4 describes it, formalised from the
spec's words: split on the literal two-backslash sequence, trim the
candidates, drop those that are empty or exactly `\hline`, split each
survivor on `&` with cells trimmed; first survivor is the header, the rest
are the body rows. -/
def extractTableSpecC4 (content : String) : Option (List String × List (List String)) :=
  let candidates := (jsSplit "\\\\" content).map jsTrim
  let surviving := candidates.filter (fun row => ¬ (row = "" ∨ row = "\\hline"))
  match surviving with
  | [] => none
  | h :: t =>
    some ((jsSplit "&" h).map jsTrim, t.map (fun row => (jsSplit "&" row).map jsTrim))

/-- A single-choice question with expected answer `"B"` (scenario data). -/
def qB : Question := ⟨101, "MCQ", "q", "B", "math", ""⟩

/-- A multiple-choice question with expected answer `"AC"` (scenario data). -/
def qAC : Question := ⟨102, "MCQ(multiple)", "q", "AC", "math", ""⟩

/-- A bank of five distinct mathematics questions (scenario data). -/
def bankEx : List Question :=
  [⟨1, "MCQ", "q1", "A", "math", ""⟩, ⟨2, "MCQ", "q2", "B", "math", ""⟩,
   ⟨3, "MCQ", "q3", "C", "math", ""⟩, ⟨4, "MCQ", "q4", "D", "math", ""⟩,
   ⟨5, "MCQ", "q5", "A", "math", ""⟩]

example : jsSplit "$" "a $x^2$ b" = ["a ", "x^2", " b"] := by decide
example : splitNewlineRuns "a\n\nb\n" = ["a", "b", ""] := by decide
example : splitDisplay "u\\[x\\]v" = ["u", "\\[x\\]", "v"] := by decide
example : renderMath "\\[x\\]\n\\begin{center}" =
    [Block.displayMath "x", Block.para "\\begin{center}"] := by decide
example : renderMath "\\begin{center}\\begin{tabular}x" =
    [Block.rawText "\\begin{center}\\begin{tabular}x"] := by decide
example : tableRows "\\hline" = [] := by decide
example : extractTable " a & b \\\\ 1 & 2 " = some (["a", "b"], [["1", "2"]]) := by decide
example : applyToggles ["C", "A"] = ["A", "C"] := by decide
example : applyToggles ["A", "C", "A"] = ["C"] := by decide

theorem lexLeb_total : ∀ a b : List Char, lexLeb a b = true ∨ lexLeb b a = true := by
  intro a
  induction a with
  | nil => intro b; left; rfl
  | cons x xs ih =>
    intro b
    cases b with
    | nil => right; rfl
    | cons y ys =>
      by_cases hxy : x < y
      · left; simp [lexLeb, hxy]
      · by_cases hyx : y < x
        · right; simp [lexLeb, hyx]
        · rcases ih ys with h | h
          · left; simp [lexLeb, hxy, hyx, h]
          · right; simp [lexLeb, hxy, hyx, h]

theorem lexLeb_trans : ∀ {a b c : List Char},
    lexLeb a b = true → lexLeb b c = true → lexLeb a c = true := by
  intro a
  induction a with
  | nil => intros; rfl
  | cons x xs ih =>
    intro b c hab hbc
    cases b with
    | nil => simp [lexLeb] at hab
    | cons y ys =>
      cases c with
      | nil => simp [lexLeb] at hbc
      | cons z zs =>
        by_cases hxy : x < y
        · by_cases hyz : y < z
          · simp [lexLeb, lt_trans hxy hyz]
          · by_cases hzy : z < y
            · simp [lexLeb, hyz, hzy] at hbc
            · have hyz' : y = z := le_antisymm (not_lt.mp hzy) (not_lt.mp hyz)
              simp [lexLeb, hyz' ▸ hxy]
        · by_cases hyx : y < x
          · simp [lexLeb, hxy, hyx] at hab
          · have hxy' : x = y := le_antisymm (not_lt.mp hyx) (not_lt.mp hxy)
            subst hxy'
            simp only [lexLeb, if_neg hxy, if_neg hyx] at hab
            by_cases hxz : x < z
            · simp [lexLeb, hxz]
            · by_cases hzx : z < x
              · simp [lexLeb, hxz, hzx] at hbc
              · simp only [lexLeb, if_neg hxz, if_neg hzx] at hbc ⊢
                exact ih hab hbc

theorem lexLeb_antisymm : ∀ {a b : List Char},
    lexLeb a b = true → lexLeb b a = true → a = b := by
  intro a
  induction a with
  | nil =>
    intro b h1 h2
    cases b with
    | nil => rfl
    | cons y ys => simp [lexLeb] at h2
  | cons x xs ih =>
    intro b h1 h2
    cases b with
    | nil => simp [lexLeb] at h1
    | cons y ys =>
      by_cases hxy : x < y
      · simp [lexLeb, hxy, asymm hxy] at h2
      · by_cases hyx : y < x
        · simp [lexLeb, hxy, hyx] at h1
        · have hxy' : x = y := le_antisymm (not_lt.mp hyx) (not_lt.mp hxy)
          subst hxy'
          simp only [lexLeb, if_neg hxy, if_neg hyx] at h1 h2
          rw [ih h1 h2]

instance : IsTotal String jsLe := ⟨fun a b => lexLeb_total a.data b.data⟩

instance : IsTrans String jsLe := ⟨fun _ _ _ hab hbc => lexLeb_trans hab hbc⟩

instance : IsAntisymm String jsLe :=
  ⟨fun a b h1 h2 => by
    have h := lexLeb_antisymm h1 h2
    exact congrArg String.mk h⟩

theorem handleMultiAnswer_sorted_nodup {cur : List String} (a : String)
    (hs : cur.Sorted jsLe) (hn : cur.Nodup) :
    (handleMultiAnswer cur a).Sorted jsLe ∧ (handleMultiAnswer cur a).Nodup := by
  unfold handleMultiAnswer
  by_cases hc : cur.contains a = true
  · rw [if_pos hc]
    exact ⟨hs.filter _, hn.filter _⟩
  · rw [if_neg hc]
    refine ⟨List.sorted_insertionSort jsLe _, ?_⟩
    rw [(List.perm_insertionSort jsLe (cur ++ [a])).nodup_iff]
    have ha : a ∉ cur := by simpa using hc
    simp [List.nodup_append, hn, ha]

theorem applyToggles_sorted_nodup (toggles : List String) :
    (applyToggles toggles).Sorted jsLe ∧ (applyToggles toggles).Nodup := by
  have h : ∀ (ts : List String) (init : List String),
      init.Sorted jsLe → init.Nodup →
      (ts.foldl handleMultiAnswer init).Sorted jsLe ∧
        (ts.foldl handleMultiAnswer init).Nodup := by
    intro ts
    induction ts with
    | nil => intro init hs hn; exact ⟨hs, hn⟩
    | cons t ts ih =>
      intro init hs hn
      simp only [List.foldl_cons]
      have h1 := handleMultiAnswer_sorted_nodup t hs hn
      exact ih _ h1.1 h1.2
  exact h toggles [] List.sorted_nil List.nodup_nil

theorem eq_of_sorted_nodup_mem_iff {l1 l2 : List String}
    (hs1 : l1.Sorted jsLe) (hn1 : l1.Nodup) (hs2 : l2.Sorted jsLe) (hn2 : l2.Nodup)
    (hmem : ∀ x, x ∈ l1 ↔ x ∈ l2) : l1 = l2 :=
  List.eq_of_perm_of_sorted ((List.perm_ext_iff_of_nodup hn1 hn2).mpr hmem) hs1 hs2

theorem foldl_count_aux (p : Nat × Question → Bool) :
    ∀ (l : List (Nat × Question)) (n : Nat),
      l.foldl (fun score iq => if p iq then score + 1 else score) n = n + l.countP p := by
  intro l
  induction l with
  | nil => intro n; simp
  | cons x xs ih =>
    intro n
    rw [List.foldl_cons, List.countP_cons, ih]
    by_cases h : p x
    · rw [if_pos h, if_pos h]
      omega
    · rw [if_neg h, if_neg h]
      omega

theorem calculateScore_eq_countP (qs : List Question) (answers : Nat → Option (List String)) :
    calculateScore qs answers =
      qs.enum.countP (fun iq => isAnswerCorrect iq.2 ((answers iq.1).getD [])) := by
  unfold calculateScore
  have hfun : (fun (score : Nat) (iq : Nat × Question) =>
      let userAnswer := (answers iq.1).getD []
      if iq.2.type = "MCQ(multiple)" then
        (if String.join userAnswer == iq.2.gold then score + 1 else score)
      else
        (if userAnswer.head? == some iq.2.gold then score + 1 else score))
      = fun score iq =>
          if isAnswerCorrect iq.2 ((answers iq.1).getD []) then score + 1 else score := by
    funext score iq
    simp only [isAnswerCorrect]
    by_cases h : iq.2.type = "MCQ(multiple)" <;> simp [h]
  rw [hfun, foldl_count_aux _ qs.enum 0]
  omega

theorem classifySegment_eq_amendedC2 (part : String) :
    classifySegment part = classifySegmentAmendedC2 part := by
  unfold classifySegment classifySegmentAmendedC2
  by_cases h1 : hasSub "\\begin{center}" part = true
  · by_cases h2 : hasSub "\\begin{tabular}" part = true
    · rw [if_pos (by simp [h1, h2]), if_pos ⟨h1, h2⟩]
      cases htc : tabularContent part with
      | none => rfl
      | some c =>
        by_cases hc : c = "" <;> simp [hc]
    · simp [h2]
  · simp [h1]

/-- C1 counterexample: for the body `"\[x\]\n\begin{center}"` the code
renders the trailing center marker as a paragraph, whereas applying the
remaining segmentation rules (including center-marker dropping) to the
parts outside the display-math region, as the claim states, would drop
it. -/
theorem renderMath_displayRegion_cx :
    renderMath "\\[x\\]\n\\begin{center}" =
      [Block.displayMath "x", Block.para "\\begin{center}"]
  ∧ renderMathClaimC1 "\\[x\\]\n\\begin{center}" =
      [Block.para "", Block.displayMath "x", Block.para ""]
  ∧ renderMath "\\[x\\]\n\\begin{center}" ≠
      renderMathClaimC1 "\\[x\\]\n\\begin{center}" := by decide

/-- C1 (amended): for every question body containing both display-math
markers, the segmenter splits the text on the bounded regions as wholes,
turns each region's interior into a single display-math block that is not
split into paragraphs, and applies only blank-line splitting and paragraph
formation (dropping parts that trim to nothing) to the parts outside the
regions — table detection and center-marker dropping are not applied
there. -/
theorem renderMath_displayRegion_split :
    (∀ text : String, hasSub "\\[" text = true → hasSub "\\]" text = true →
        renderMath text = renderMathAmendedC1 text)
  ∧ renderMath "intro\n\\[ E = mc^2 \\]\noutro\n\\begin{center}" =
      [Block.para "intro", Block.displayMath " E = mc^2 ",
       Block.para "outro", Block.para "\\begin{center}"] := by
  constructor
  · intro text h1 h2
    unfold renderMath renderMathAmendedC1
    rw [if_pos (by simp [h1, h2])]
  · decide

/-- Witness for C1 (amended) at a concrete body with a display region. -/
theorem renderMath_displayRegion_split_witness :
    renderMath "\\[x\\]" = renderMathAmendedC1 "\\[x\\]" :=
  renderMath_displayRegion_split.1 "\\[x\\]" (by decide) (by decide)

/-- C2 counterexample: the single segment `"\begin{center}\begin{tabular}x"`
contains both the center-begin and tabular-begin markers (and no
display-math region), yet the segmenter emits it verbatim as raw text —
there is no tabular-end marker — not as a Table block as the claim
states. -/
theorem renderMath_blankLine_cx :
    hasSub "\\begin{center}" "\\begin{center}\\begin{tabular}x" = true
  ∧ hasSub "\\begin{tabular}" "\\begin{center}\\begin{tabular}x" = true
  ∧ hasSub "\\[" "\\begin{center}\\begin{tabular}x" = false
  ∧ renderMath "\\begin{center}\\begin{tabular}x" =
      [Block.rawText "\\begin{center}\\begin{tabular}x"]
  ∧ (renderMath "\\begin{center}\\begin{tabular}x").any
      (fun b => match b with | Block.table _ => true | _ => false) = false := by decide

/-- C2 (amended): for every question body without a display-math region,
the segmenter splits on runs of newlines and classifies each segment in
order: a segment with both the center-wrapper begin marker and the
tabular-begin marker becomes a Table block from the substring between the
first tabular begin/end markers when the end marker exists and the
substring is non-empty, and is emitted verbatim as raw text otherwise; a
segment trimming to a bare center marker produces no block; every other
segment becomes one Paragraph block. -/
theorem renderMath_blankLine_classification :
    (∀ text : String, ¬ (hasSub "\\[" text = true ∧ hasSub "\\]" text = true) →
        renderMath text = (splitNewlineRuns text).filterMap classifySegmentAmendedC2)
  ∧ renderMath "Q\n\\begin{center} \\begin{tabular}{cc} a & b \\\\ 1 & 2 \\end{tabular} \\end{center}\n\\end{center}" =
      [Block.para "Q", Block.table "{cc} a & b \\\\ 1 & 2 "] := by
  constructor
  · intro text h
    unfold renderMath
    rw [if_neg (by simpa [Bool.and_eq_true] using h)]
    exact List.filterMap_congr (fun part _ => classifySegment_eq_amendedC2 part)
  · decide

/-- Witness for C2 (amended) at a concrete body without a display region. -/
theorem renderMath_blankLine_classification_witness :
    renderMath "hello" = (splitNewlineRuns "hello").filterMap classifySegmentAmendedC2 :=
  renderMath_blankLine_classification.1 "hello" (by decide)

/-- C3: inline-math resolution splits a display string on `$` and routes
every odd-indexed (0-indexed) fragment to the typesetting collaborator,
keeping every even-indexed fragment literal; in particular, for
`"a $x^2$ b"` the literals `"a "` and `" b"` are preserved and `"x^2"` is
routed to the typesetter. -/
theorem renderMathInline_dollar_split :
    (∀ (katex : String → Option String) (text : String),
        renderMathInline katex text = (inlineFrags text).map (renderFrag katex))
  ∧ (∀ (text : String) (i : Nat),
        (inlineFrags text)[i]? = ((jsSplit "$" text)[i]?).map
          (fun p => if i % 2 = 1 then InlineFrag.math p else InlineFrag.lit p))
  ∧ inlineFrags "a $x^2$ b" =
      [InlineFrag.lit "a ", InlineFrag.math "x^2", InlineFrag.lit " b"]
  ∧ renderMathInline (fun e => some e) "a $x^2$ b" =
      [Inline.lit "a ", Inline.typeset "x^2", Inline.lit " b"] := by
  refine ⟨?_, ?_, by decide, by decide⟩
  · intro katex text
    unfold renderMathInline inlineFrags
    rw [List.map_map]
    refine List.map_congr_left ?_
    intro ip _
    by_cases h : ip.1 % 2 = 1 <;> simp [h, renderFrag]
  · intro text i
    simp only [inlineFrags, List.getElem?_map, List.getElem?_enum, Option.map_map]
    cases h : (jsSplit "$" text)[i]? <;> simp [h]

/-- C4: the Table Extractor splits on the literal two-backslash sequence,
trims each candidate row, drops candidates that are empty or exactly
`\hline`, splits each survivor on `&` with cells trimmed, and takes the
first survivor as the header and the rest as body rows in order. -/
theorem extractTable_spec :
    (∀ content : String, extractTable content = extractTableSpecC4 content)
  ∧ extractTable " a & b \\\\ \\hline \\\\ 1 & 2 \\\\ 3 & 4 " =
      some (["a", "b"], [["1", "2"], ["3", "4"]]) := by
  constructor
  · intro content
    unfold extractTable extractTableSpecC4 tableRows splitCells
    have hfun : (fun (row : String) => row != "\\hline" && row != "") =
        (fun (row : String) => decide (¬ (row = "" ∨ row = "\\hline"))) := by
      funext row
      by_cases hh : row = "\\hline" <;> by_cases he : row = "" <;> simp [hh, he]
    rw [hfun]
  · decide

/-- C5: at a tabular region whose candidate rows all trim to `\hline` or
empty, the surviving row list is empty, so the `Table` component's
`rows[0]` access is out of bounds (`none` in this embedding); the
JavaScript source crashes with a TypeError there instead of failing with
the explicit empty-or-malformed-table condition the claim requires. -/
theorem extractTable_empty_crash :
    tableRows " \\hline \\\\ " = [] ∧ extractTable " \\hline \\\\ " = none := by decide

/-- C6: scoring judges a multiple-choice question by literal string
comparison of the joined selection letters against the answer string, and
every other kind by exact comparison of the first recorded answer with the
expected value; with expected answer `"B"`, the record `["B"]` scores
correct and `["A"]` scores incorrect. -/
theorem calculateScore_rule :
    (∀ (qs : List Question) (answers : Nat → Option (List String)),
        calculateScore qs answers =
          qs.enum.countP (fun iq => isAnswerCorrect iq.2 ((answers iq.1).getD [])))
  ∧ (∀ (q : Question) (ua : List String), q.type = "MCQ(multiple)" →
        (isAnswerCorrect q ua = true ↔ String.join ua = q.gold))
  ∧ (∀ (q : Question) (ua : List String), q.type ≠ "MCQ(multiple)" →
        (isAnswerCorrect q ua = true ↔ ua.head? = some q.gold))
  ∧ calculateScore [qB] (fun _ => some ["B"]) = 1
  ∧ calculateScore [qB] (fun _ => some ["A"]) = 0 := by
  refine ⟨calculateScore_eq_countP, ?_, ?_, by decide, by decide⟩
  · intro q ua h
    simp [isAnswerCorrect, h]
  · intro q ua h
    simp [isAnswerCorrect, h]

/-- Witness for C6 at the single-choice scenario question. -/
theorem calculateScore_rule_witness :
    isAnswerCorrect qB ["B"] = true ↔ ["B"].head? = some qB.gold :=
  calculateScore_rule.2.2.1 qB ["B"] (by decide)

/-- C7: the stored multiple-choice record depends only on the set of
options left selected, not on toggle order — any two toggle sequences from
the empty record with the same resulting membership give equal records —
and both `C` then `A` and `A` then `C` yield `["A","C"]`, which scores
correct against gold `"AC"`. -/
theorem multiAnswer_order_independent :
    (∀ s1 s2 : List String,
        (∀ x, x ∈ applyToggles s1 ↔ x ∈ applyToggles s2) →
        applyToggles s1 = applyToggles s2)
  ∧ applyToggles ["C", "A"] = ["A", "C"]
  ∧ applyToggles ["A", "C"] = ["A", "C"]
  ∧ isAnswerCorrect qAC (applyToggles ["C", "A"]) = true
  ∧ isAnswerCorrect qAC (applyToggles ["A", "C"]) = true := by
  refine ⟨?_, by decide, by decide, by decide, by decide⟩
  intro s1 s2 hmem
  have h1 := applyToggles_sorted_nodup s1
  have h2 := applyToggles_sorted_nodup s2
  exact eq_of_sorted_nodup_mem_iff h1.1 h1.2 h2.1 h2.2 hmem

/-- Witness for C7: the two toggle orders of the scenario give equal
records. -/
theorem multiAnswer_order_independent_witness :
    applyToggles ["C", "A"] = applyToggles ["A", "C"] :=
  multiAnswer_order_independent.1 ["C", "A"] ["A", "C"] (fun x => by
    have h1 : applyToggles ["C", "A"] = ["A", "C"] := by decide
    have h2 : applyToggles ["A", "C"] = ["A", "C"] := by decide
    rw [h1, h2])

/-- C8: for any shuffle that permutes the subject-filtered bank (which is
what the random-comparator sort does), the session list has exactly
`min 20 available` questions, every one of them from the bank with the
chosen subject, each appearing once (distinct identifiers); a subject with
5 available questions yields exactly 5. -/
theorem filteredQuestions_spec :
    ∀ (bank : List Question) (subject : String) (shuffle : List Question → List Question),
      (shuffle (bank.filter (fun q => q.subject = subject))).Perm
          (bank.filter (fun q => q.subject = subject)) →
      (bank.map Question.id).Nodup →
      (filteredQuestions bank subject shuffle).length
          = min 20 (bank.filter (fun q => q.subject = subject)).length
      ∧ (∀ q ∈ filteredQuestions bank subject shuffle, q.subject = subject ∧ q ∈ bank)
      ∧ ((filteredQuestions bank subject shuffle).map Question.id).Nodup
      ∧ ((bank.filter (fun q => q.subject = subject)).length = 5 →
          (filteredQuestions bank subject shuffle).length = 5) := by
  intro bank subject shuffle hperm hid
  unfold filteredQuestions
  refine ⟨?_, ?_, ?_, ?_⟩
  · rw [List.length_take, hperm.length_eq]
  · intro q hq
    have hq1 : q ∈ shuffle (bank.filter fun q => q.subject = subject) :=
      (List.take_sublist 20 _).subset hq
    have hq2 : q ∈ bank.filter (fun q => q.subject = subject) := hperm.mem_iff.mp hq1
    have hmf := List.mem_filter.mp hq2
    exact ⟨by simpa using hmf.2, hmf.1⟩
  · have h1 : ((bank.filter (fun q => q.subject = subject)).map Question.id).Nodup :=
      ((List.filter_sublist bank).map Question.id).nodup hid
    have h2 : ((shuffle (bank.filter fun q => q.subject = subject)).map Question.id).Nodup :=
      ((hperm.map Question.id).nodup_iff).mpr h1
    exact ((List.take_sublist 20 _).map Question.id).nodup h2
  · intro h5
    rw [List.length_take, hperm.length_eq, h5]
    omega

/-- Witness for C8 at a five-question mathematics bank with the identity
shuffle. -/
theorem filteredQuestions_spec_witness :
    (filteredQuestions bankEx "math" (fun l => l)).length
        = min 20 (bankEx.filter (fun q => q.subject = "math")).length
    ∧ (∀ q ∈ filteredQuestions bankEx "math" (fun l => l), q.subject = "math" ∧ q ∈ bankEx)
    ∧ ((filteredQuestions bankEx "math" (fun l => l)).map Question.id).Nodup
    ∧ ((bankEx.filter (fun q => q.subject = "math")).length = 5 →
        (filteredQuestions bankEx "math" (fun l => l)).length = 5) :=
  filteredQuestions_spec bankEx "math" (fun l => l) (List.Perm.refl _) (by decide)

/-- C9: every math fragment handed to the typesetting collaborator that
fails to parse is replaced by its raw expression text and the rest of the
fragments are still rendered: the output always has one node per `$`-split
fragment, and a failing odd-indexed fragment yields exactly the raw
node. -/
theorem renderMathInline_failure_fallback :
    (∀ (katex : String → Option String) (text : String),
        (renderMathInline katex text).length = (jsSplit "$" text).length)
  ∧ (∀ (katex : String → Option String) (text : String) (i : Nat) (p : String),
        (jsSplit "$" text)[i]? = some p → i % 2 = 1 → katex p = none →
        (renderMathInline katex text)[i]? = some (Inline.raw p))
  ∧ renderMathInline (fun _ => none) "a $x^2$ b" =
      [Inline.lit "a ", Inline.raw "x^2", Inline.lit " b"] := by
  refine ⟨?_, ?_, by decide⟩
  · intro katex text
    simp [renderMathInline, List.enum_length]
  · intro katex text i p hp hi hk
    simp [renderMathInline, List.getElem?_map, List.getElem?_enum, hp, hi, hk]

/-- Witness for C9: with a collaborator that always fails, the math
fragment of the scenario string comes back raw. -/
theorem renderMathInline_failure_fallback_witness :
    (renderMathInline (fun _ => none) "a $x^2$ b")[1]? = some (Inline.raw "x^2") :=
  renderMathInline_failure_fallback.2.1 (fun _ => none) "a $x^2$ b" 1 "x^2"
    (by decide) (by decide) rfl

/-- C10: from the empty record, any toggle sequence leaves the
multiple-choice record sorted (JS string order) and duplicate-free, and
toggling an already-present option removes exactly that option, leaving
the others in place. -/
theorem multiAnswer_record_invariant :
    (∀ toggles : List String,
        (applyToggles toggles).Sorted jsLe ∧ (applyToggles toggles).Nodup)
  ∧ (∀ (cur : List String) (a : String), cur.Nodup → a ∈ cur →
        handleMultiAnswer cur a = cur.erase a
      ∧ a ∉ handleMultiAnswer cur a
      ∧ ∀ b ∈ cur, b ≠ a → b ∈ handleMultiAnswer cur a) := by
  refine ⟨applyToggles_sorted_nodup, ?_⟩
  intro cur a hn ha
  have hc : cur.contains a = true := by simpa using ha
  have herase : handleMultiAnswer cur a = cur.erase a := by
    unfold handleMultiAnswer
    rw [if_pos hc]
    exact (hn.erase_eq_filter a).symm
  refine ⟨herase, ?_, ?_⟩
  · unfold handleMultiAnswer
    rw [if_pos hc]
    simp [List.mem_filter]
  · intro b hb hba
    unfold handleMultiAnswer
    rw [if_pos hc]
    simp [List.mem_filter, hb, hba]

/-- Witness for C10: toggling the present option `"A"` removes exactly
it. -/
theorem multiAnswer_record_invariant_witness :
    handleMultiAnswer ["A", "C"] "A" = (["A", "C"] : List String).erase "A"
  ∧ "A" ∉ handleMultiAnswer ["A", "C"] "A" := by
  have h := multiAnswer_record_invariant.2 ["A", "C"] "A" (by decide) (by decide)
  exact ⟨h.1, h.2.1⟩

end JeeQB
